import Mathlib

/-!
Verification of the `untangling-callbacks` repository: a pipeline that,
given a directory, finds the file containing the most non-empty lines.

Embedding conventions:
* File contents are Lean `String`s; the line splitter works on the
  underlying character list (`String.data`), matching JS
  `content.split('\n')` which splits the character sequence on `'\n'`.
* The asynchronous, callback-based I/O is embedded as explicit
  `Except ε` results: the file-read collaborator is a function
  `read : String → Except ε String` and the directory-listing
  collaborator is `listdir : String → Except ε (List String)`.
  `callback(err)` becomes `Except.error err`; `callback(null, v)`
  becomes `Except.ok v`.
* `findMaxFile`'s success value is an `Option String`: `none` models the
  `null` result for an empty input list.
-/

namespace Untangling

/-- Splitting a character sequence on the newline character, matching JS
`string.split('\n')`: the result is always non-empty, an empty input
yields one empty segment, and a trailing newline yields a trailing empty
segment. -/
def splitOnNewline : List Char → List (List Char)
  | [] => [[]]
  | c :: cs =>
    match splitOnNewline cs with
    | [] => [[c]]
    | l :: ls => if c = '\n' then [] :: l :: ls else (c :: l) :: ls

/-- The function `countNonEmptyLines` from `src/article.md`:
`content.split('\n').filter(Boolean).length` — split the text on the
newline character and count the segments of positive length
(JS `Boolean(s)` is `false` exactly for the empty string). -/
def countNonEmptyLines (s : String) : Nat :=
  ((splitOnNewline s.data).filter (fun l => decide (0 < l.length))).length

/-- Modelled from the spec: `lib/index-of-max.js` is required by
`src/find-max-file-in-directory.js` but is not under `src/`. Helper
scanning the list from the head, returning the index of the greatest
value together with that value; on ties the lowest index wins (a strictly
greater value further right is needed to displace the current best). -/
def idxMax {α : Type} [LinearOrder α] : List α → Option (Nat × α)
  | [] => none
  | x :: xs =>
    match idxMax xs with
    | none => some (0, x)
    | some (j, m) => if m > x then some (j + 1, m) else some (0, x)

/-- Modelled from the spec: `lib/index-of-max.js` is not under `src/`.
Given an ordered sequence of numbers, return the zero-based index of the
element with the greatest value, lowest index winning on ties; an empty
sequence has no sensible index and yields `none` (a well-defined
failure, never a silent index). -/
def indexOfMax {α : Type} [LinearOrder α] (xs : List α) : Option Nat :=
  (idxMax xs).map Prod.fst

/-- The function `loadFiles` from `src/lib/load-files.js`: map the file-read
collaborator over the paths, delivering the contents in input order, the
first failure aborting the whole batch. -/
def loadFiles {ε : Type} (read : String → Except ε String) :
    List String → Except ε (List String)
  | [] => .ok []
  | f :: rest =>
    match read f with
    | .error e => .error e
    | .ok c =>
      match loadFiles read rest with
      | .error e => .error e
      | .ok cs => .ok (c :: cs)

/-- Modelled from the spec: the `map-async` join used by `loadFiles` is
an external dependency, not under `src/`. Each completed read writes its
result into its own reserved slot (index-tagging); `fillSlots` processes
completions in an arbitrary completion order. -/
def fillSlots {α : Type} (results : Nat → α) (slots : List (Option α)) :
    List Nat → List (Option α)
  | [] => slots
  | i :: order => fillSlots results (slots.set i (some (results i))) order

/-- Modelled from the spec: the batch result assembled from `n` empty
slots after every read completes, in an arbitrary completion order. -/
def assemble {α : Type} (results : Nat → α) (n : Nat) (order : List Nat) :
    List (Option α) :=
  fillSlots results (List.replicate n none) order

/-- The collaborator `path.join(dir, filename)` from `src/find-max-file-in-directory.js`,
modelled for already-normalized segments. -/
def pathJoin (dir f : String) : String := dir ++ "/" ++ f

/-- The function `findMaxFile` from `src/find-max-file-in-directory.js`: empty input
succeeds immediately with `none`; otherwise load all files, count
non-empty lines of each content in order, take the index of the maximum
count and succeed with the original path at that index. `indexOfMax` is
`Option`-valued in the embedding, so the (unreachable, since the counts
list is non-empty here) empty case is threaded through with `bind`. -/
def findMaxFile {ε : Type} (read : String → Except ε String)
    (filenames : List String) : Except ε (Option String) :=
  if filenames.length = 0 then .ok none
  else
    match loadFiles read filenames with
    | .error e => .error e
    | .ok results =>
      let lineCounts := results.map countNonEmptyLines
      .ok ((indexOfMax lineCounts).bind (fun i => filenames[i]?))

/-- The function `findMaxFileInDirectory` from `src/find-max-file-in-directory.js`:
list the directory, propagate a listing failure unchanged, otherwise
prepend the directory to every entry and delegate to `findMaxFile`. -/
def findMaxFileInDirectory {ε : Type}
    (listdir : String → Except ε (List String))
    (read : String → Except ε String) (dir : String) :
    Except ε (Option String) :=
  match listdir dir with
  | .error e => .error e
  | .ok filenames => findMaxFile read (filenames.map (fun f => pathJoin dir f))


/-- Concrete file contents used to instantiate hypotheses at the spec's
worked example: path A has 3 non-empty lines, B and C have 5 each. -/
def exampleContent : String → String
  | "B" => "1\n2\n3\n4\n5"
  | "C" => "5\n6\n7\n8\n9"
  | _ => "1\n2\n3"

/-- Alternative contents with different text but the same per-path
non-empty line counts as `exampleContent`. -/
def exampleContent2 : String → String
  | "B" => "u\nv\nw\nx\ny"
  | "C" => "aa\nbb\ncc\ndd\nee\n"
  | _ => "p\nq\nr"

/-- A file-read collaborator whose every read succeeds with
`exampleContent`. -/
def exampleRead : String → Except String String := fun p => .ok (exampleContent p)

/-- A file-read collaborator whose every read succeeds with
`exampleContent2`. -/
def exampleRead2 : String → Except String String := fun p => .ok (exampleContent2 p)

/-- A file-read collaborator for which exactly the path "A" is readable. -/
def failRead : String → Except String String
  | "A" => .ok "1\n2"
  | p => .error ("ENOENT: " ++ p)

/-- A directory-listing collaborator that always fails. -/
def failList : String → Except String (List String) := fun d => .error ("EACCES: " ++ d)

theorem splitOnNewline_cons (c : Char) (cs : List Char) :
    splitOnNewline (c :: cs) =
      match splitOnNewline cs with
      | [] => [[c]]
      | l :: ls => if c = '\n' then [] :: l :: ls else (c :: l) :: ls := rfl

theorem splitOnNewline_ne_nil (cs : List Char) : splitOnNewline cs ≠ [] := by
  cases cs with
  | nil => simp [splitOnNewline]
  | cons c cs =>
    rw [splitOnNewline_cons]
    cases h : splitOnNewline cs with
    | nil => simp
    | cons l ls =>
      by_cases hc : c = '\n' <;> simp [hc]

theorem splitOnNewline_append_newline (cs : List Char) :
    splitOnNewline (cs ++ ['\n']) = splitOnNewline cs ++ [[]] := by
  induction cs with
  | nil => rfl
  | cons c cs ih =>
    rw [List.cons_append, splitOnNewline_cons, splitOnNewline_cons, ih]
    cases h : splitOnNewline cs with
    | nil => exact absurd h (splitOnNewline_ne_nil cs)
    | cons l ls =>
      by_cases hc : c = '\n' <;> simp [hc]

theorem idxMax_cons {α : Type} [LinearOrder α] (x : α) (xs : List α) :
    idxMax (x :: xs) =
      match idxMax xs with
      | none => some (0, x)
      | some (j, m) => if m > x then some (j + 1, m) else some (0, x) := rfl

theorem idxMax_spec {α : Type} [LinearOrder α] (xs : List α) (hne : xs ≠ []) :
    ∃ j m, idxMax xs = some (j, m) ∧
      ∃ hj : j < xs.length, xs[j] = m ∧
        (∀ (k : Nat) (hk : k < xs.length), xs[k] ≤ m) ∧
        (∀ (k : Nat) (hk : k < xs.length), k < j → xs[k] < m) := by
  induction xs with
  | nil => exact absurd rfl hne
  | cons x xs ih =>
    cases xs with
    | nil =>
      refine ⟨0, x, rfl, by simp, by simp, ?_, ?_⟩
      · intro k hk
        have hk0 : k = 0 := by simpa using hk
        subst hk0
        simp
      · intro k hk hk0
        omega
    | cons y ys =>
      obtain ⟨j, m, hidx, hj, hget, hmax, hfirst⟩ := ih (by simp)
      rw [idxMax_cons, hidx]
      by_cases hxm : m > x
      · refine ⟨j + 1, m, by simp [hxm], by simpa using hj, ?_, ?_, ?_⟩
        · simpa using hget
        · intro k hk
          cases k with
          | zero => simpa using le_of_lt hxm
          | succ k => simpa using hmax k (by simpa using hk)
        · intro k hk hkj
          cases k with
          | zero => simpa using hxm
          | succ k => simpa using hfirst k (by simpa using hk) (by omega)
      · refine ⟨0, x, by simp [hxm], by simp, by simp, ?_, ?_⟩
        · intro k hk
          cases k with
          | zero => simp
          | succ k =>
            have h1 := hmax k (by simpa using hk)
            have hmx : m ≤ x := le_of_not_lt hxm
            simpa using le_trans h1 hmx
        · intro k hk hk0
          omega

theorem indexOfMax_spec_core {α : Type} [LinearOrder α] (xs : List α) (hne : xs ≠ []) :
    ∃ i, indexOfMax xs = some i ∧
      ∃ hi : i < xs.length,
        (∀ (j : Nat) (hj : j < xs.length), xs[j] ≤ xs[i]) ∧
        (∀ (j : Nat) (hj : j < xs.length), j < i → xs[j] < xs[i]) := by
  obtain ⟨j, m, hidx, hj, hget, hmax, hfirst⟩ := idxMax_spec xs hne
  refine ⟨j, ?_, hj, ?_, ?_⟩
  · unfold indexOfMax
    rw [hidx]
    rfl
  · intro k hk
    rw [hget]
    exact hmax k hk
  · intro k hk hkj
    rw [hget]
    exact hfirst k hk hkj

theorem loadFiles_ok_of_reads {ε : Type} (read : String → Except ε String)
    (content : String → String) (paths : List String)
    (h : ∀ p ∈ paths, read p = .ok (content p)) :
    loadFiles read paths = .ok (paths.map content) := by
  induction paths with
  | nil => rfl
  | cons f rest ih =>
    unfold loadFiles
    rw [h f (by simp), ih (fun q hq => h q (by simp [hq]))]
    rfl

theorem loadFiles_length {ε : Type} (read : String → Except ε String)
    (paths : List String) (results : List String)
    (h : loadFiles read paths = .ok results) : results.length = paths.length := by
  induction paths generalizing results with
  | nil =>
    unfold loadFiles at h
    cases h
    rfl
  | cons f rest ih =>
    unfold loadFiles at h
    cases hr : read f with
    | error e => rw [hr] at h; cases h
    | ok c =>
      rw [hr] at h
      cases hl : loadFiles read rest with
      | error e => rw [hl] at h; cases h
      | ok cs =>
        rw [hl] at h
        cases h
        simpa using ih cs hl

theorem loadFiles_error_single {ε : Type} (read : String → Except ε String)
    (paths : List String) (p : String) (e : ε)
    (hp : p ∈ paths) (he : read p = .error e)
    (hok : ∀ q ∈ paths, q ≠ p → ∃ c, read q = .ok c) :
    loadFiles read paths = .error e := by
  induction paths with
  | nil => cases hp
  | cons f rest ih =>
    unfold loadFiles
    by_cases hfp : f = p
    · subst hfp
      rw [he]
    · obtain ⟨c, hc⟩ := hok f (by simp) hfp
      rw [hc]
      have hprest : p ∈ rest := by
        cases hp with
        | head => exact absurd rfl hfp
        | tail _ h => exact h
      rw [ih hprest (fun q hq hqp => hok q (by simp [hq]) hqp)]

theorem fillSlots_length {α : Type} (results : Nat → α)
    (order : List Nat) (slots : List (Option α)) :
    (fillSlots results slots order).length = slots.length := by
  induction order generalizing slots with
  | nil => rfl
  | cons i order ih =>
    unfold fillSlots
    rw [ih]
    simp

theorem fillSlots_getElem? {α : Type} (results : Nat → α)
    (order : List Nat) (slots : List (Option α)) (j : Nat) :
    (fillSlots results slots order)[j]? =
      if j ∈ order ∧ j < slots.length then some (some (results j)) else slots[j]? := by
  induction order generalizing slots with
  | nil => simp [fillSlots]
  | cons i order ih =>
    unfold fillSlots
    rw [ih, List.getElem?_set]
    simp only [List.length_set, List.mem_cons]
    by_cases hij : i = j
    · subst hij
      by_cases hjo : i ∈ order <;> by_cases hjl : i < slots.length <;>
        simp_all [List.getElem?_eq_none, Nat.not_lt]
    · have hji : ¬ j = i := fun h => hij h.symm
      by_cases hjo : j ∈ order <;> by_cases hjl : j < slots.length <;>
        simp_all [List.getElem?_eq_none, Nat.not_lt]

theorem assemble_eq_map {α : Type} (results : Nat → α) (n : Nat) (order : List Nat)
    (hcover : ∀ i, i < n → i ∈ order) :
    assemble results n order = (List.range n).map (fun i => some (results i)) := by
  apply List.ext_getElem?
  intro j
  unfold assemble
  rw [fillSlots_getElem?]
  simp only [List.length_replicate]
  by_cases hjn : j < n
  · simp [hcover j hjn, hjn, List.getElem?_map, List.getElem?_range hjn]
  · have h1 : (List.replicate n (none : Option α))[j]? = none :=
      List.getElem?_eq_none (by simpa using Nat.not_lt.mp hjn)
    have h2 : ((List.range n).map (fun i => some (results i)))[j]? = none :=
      List.getElem?_eq_none (by simpa using Nat.not_lt.mp hjn)
    simp [hjn, h1, h2]

theorem findMaxFile_of_reads {ε : Type} (read : String → Except ε String)
    (content : String → String) (paths : List String)
    (h : ∀ p ∈ paths, read p = .ok (content p)) :
    findMaxFile read paths =
      if paths.length = 0 then .ok none
      else .ok ((indexOfMax (paths.map (fun p => countNonEmptyLines (content p)))).bind
        (fun i => paths[i]?)) := by
  unfold findMaxFile
  by_cases hl : paths.length = 0
  · simp [hl]
  · rw [if_neg hl, if_neg hl, loadFiles_ok_of_reads read content paths h]
    simp [List.map_map, Function.comp_def]

/-- C1: for every non-empty path sequence whose reads all succeed,
`findMaxFile` succeeds with exactly the input path at the index returned
by `indexOfMax` over the non-empty line counts of the loaded contents in
input order. -/
theorem findMaxFile_selects_max_index {ε : Type} (read : String → Except ε String)
    (content : String → String) (paths : List String)
    (hne : paths ≠ []) (h : ∀ p ∈ paths, read p = .ok (content p)) :
    ∃ i, indexOfMax (paths.map (fun p => countNonEmptyLines (content p))) = some i ∧
      i < paths.length ∧
      findMaxFile read paths = .ok paths[i]? := by
  obtain ⟨i, hidx, hlt, -, -⟩ := indexOfMax_spec_core
    (paths.map (fun p => countNonEmptyLines (content p))) (by simpa using hne)
  refine ⟨i, hidx, by simpa using hlt, ?_⟩
  rw [findMaxFile_of_reads read content paths h]
  have hl : paths.length ≠ 0 := by simpa [List.length_eq_zero] using hne
  rw [if_neg hl, hidx]
  rfl

/-- C1 witness: the spec's worked example — paths A, B, C with 3, 5 and
5 non-empty lines respectively yield B, the first of the tied maxima. -/
theorem findMaxFile_selects_max_index_witness :
    findMaxFile exampleRead ["A", "B", "C"] = Except.ok (some "B") := by
  obtain ⟨i, hidx, hlt, hres⟩ := findMaxFile_selects_max_index exampleRead exampleContent
    ["A", "B", "C"] (by simp) (fun p hp => rfl)
  have h1 : indexOfMax (["A", "B", "C"].map (fun p => countNonEmptyLines (exampleContent p))) =
      some 1 := rfl
  rw [hidx] at h1
  injection h1 with h1
  subst h1
  exact hres

/-- C2: `countNonEmptyLines` counts the segments of strictly positive
length after splitting on the newline character, with carriage returns
not stripped: the counts for "", "\n", "a\nb", "a\n\nb" and "a\nb\n"
are 0, 0, 2, 2 and 2, and a line consisting solely of "\r" counts as
non-empty. -/
theorem countNonEmptyLines_spec_examples :
    countNonEmptyLines "" = 0 ∧ countNonEmptyLines "\n" = 0 ∧
    countNonEmptyLines "a\nb" = 2 ∧ countNonEmptyLines "a\n\nb" = 2 ∧
    countNonEmptyLines "a\nb\n" = 2 ∧ countNonEmptyLines "\r" = 1 :=
  ⟨rfl, rfl, rfl, rfl, rfl, rfl⟩

/-- C3: when every read succeeds, `loadFiles` succeeds with one content
per input path in input order, and the index-tagged join assembles that
same input-order sequence from any completion order covering all
indices. -/
theorem loadFiles_preserves_order {ε : Type} (read : String → Except ε String)
    (content : String → String) (paths : List String)
    (h : ∀ p ∈ paths, read p = .ok (content p)) :
    loadFiles read paths = .ok (paths.map content) ∧
    (paths.map content).length = paths.length ∧
    (∀ order : List Nat, (∀ i, i < paths.length → i ∈ order) →
      assemble (fun i => content (paths.getD i "")) paths.length order =
        (paths.map content).map some) := by
  refine ⟨loadFiles_ok_of_reads read content paths h, by simp, ?_⟩
  intro order hcover
  rw [assemble_eq_map _ _ _ hcover]
  apply List.ext_getElem?
  intro j
  by_cases hj : j < paths.length
  · simp [List.getElem?_map, List.getElem?_range hj, List.getElem?_eq_getElem hj,
      List.getD_eq_getElem?_getD, List.getD]
  · rw [List.getElem?_eq_none (by simpa using Nat.not_lt.mp hj),
      List.getElem?_eq_none (by simpa using Nat.not_lt.mp hj)]

/-- C3 witness: the three example paths loaded in completion order
2, 0, 1 still assemble to the input-order contents. -/
theorem loadFiles_preserves_order_witness :
    loadFiles exampleRead ["A", "B", "C"] = Except.ok (["A", "B", "C"].map exampleContent) ∧
    assemble (fun i => exampleContent (["A", "B", "C"].getD i "")) 3 [2, 0, 1] =
      (["A", "B", "C"].map exampleContent).map some := by
  obtain ⟨h1, h2, h3⟩ := loadFiles_preserves_order exampleRead exampleContent
    ["A", "B", "C"] (fun p hp => rfl)
  exact ⟨h1, by simpa using h3 [2, 0, 1] (by decide)⟩

/-- C4: failures are surfaced verbatim and never yield a partial result:
a directory-listing failure is propagated unchanged by
`findMaxFileInDirectory` with no dependence on the file-read
collaborator (no file is read), and a single failing read makes
`findMaxFile` fail with exactly that error. -/
theorem failures_propagate_verbatim (ε : Type) :
    (∀ (listdir : String → Except ε (List String))
        (read₁ read₂ : String → Except ε String) (dir : String) (e : ε),
      listdir dir = .error e →
      findMaxFileInDirectory listdir read₁ dir = .error e ∧
      findMaxFileInDirectory listdir read₁ dir = findMaxFileInDirectory listdir read₂ dir) ∧
    (∀ (read : String → Except ε String) (paths : List String) (p : String) (e : ε),
      p ∈ paths → read p = .error e →
      (∀ q ∈ paths, q ≠ p → ∃ c, read q = .ok c) →
      findMaxFile read paths = .error e) := by
  constructor
  · intro listdir read₁ read₂ dir e he
    constructor <;> unfold findMaxFileInDirectory <;> rw [he]
  · intro read paths p e hp he hok
    unfold findMaxFile
    have hne : paths.length ≠ 0 := by
      simpa [List.length_eq_zero] using List.ne_nil_of_mem hp
    rw [if_neg hne, loadFiles_error_single read paths p e hp he hok]

/-- C4 witness: a failing directory listing and a failing read of "B"
both surface their exact error values. -/
theorem failures_propagate_verbatim_witness :
    findMaxFileInDirectory failList exampleRead "d" = Except.error "EACCES: d" ∧
    findMaxFile failRead ["A", "B"] = Except.error "ENOENT: B" := by
  refine ⟨((failures_propagate_verbatim String).1 failList exampleRead exampleRead
    "d" "EACCES: d" rfl).1, ?_⟩
  refine (failures_propagate_verbatim String).2 failRead ["A", "B"] "B" "ENOENT: B"
    (by simp) rfl ?_
  intro q hq hqp
  rcases (by simpa using hq : q = "A" ∨ q = "B") with rfl | rfl
  · exact ⟨"1\n2", rfl⟩
  · exact absurd rfl hqp

/-- C5: on the empty input sequence `findMaxFile` immediately succeeds
with the absent result, for every file-read collaborator alike (so no
read is issued and neither the loader nor the index finder can observe
the call). -/
theorem findMaxFile_empty_input (ε : Type) (read : String → Except ε String) :
    findMaxFile read [] = Except.ok none := rfl

/-- C6: on every non-empty sequence `indexOfMax` returns an index of a
greatest element, the smallest such index when maxima are tied; in
particular `indexOfMax [3, 1, 3, 2] = some 0`. -/
theorem indexOfMax_first_max {α : Type} [LinearOrder α] (xs : List α) (hne : xs ≠ []) :
    (∃ i, indexOfMax xs = some i ∧
      ∃ hi : i < xs.length,
        (∀ (j : Nat) (hj : j < xs.length), xs[j] ≤ xs[i]) ∧
        (∀ (j : Nat) (hj : j < xs.length), j < i → xs[j] < xs[i])) ∧
    indexOfMax [3, 1, 3, 2] = some 0 :=
  ⟨indexOfMax_spec_core xs hne, rfl⟩

/-- C6 witness: the specification instantiated at the sequence
[3, 1, 3, 2] itself. -/
theorem indexOfMax_first_max_witness :
    (∃ i, indexOfMax [(3 : Nat), 1, 3, 2] = some i ∧
      ∃ hi : i < [(3 : Nat), 1, 3, 2].length,
        (∀ (j : Nat) (hj : j < [(3 : Nat), 1, 3, 2].length),
          [(3 : Nat), 1, 3, 2][j] ≤ [(3 : Nat), 1, 3, 2][i]) ∧
        (∀ (j : Nat) (hj : j < [(3 : Nat), 1, 3, 2].length), j < i →
          [(3 : Nat), 1, 3, 2][j] < [(3 : Nat), 1, 3, 2][i])) ∧
    indexOfMax [(3 : Nat), 1, 3, 2] = some 0 :=
  indexOfMax_first_max [(3 : Nat), 1, 3, 2] (by decide)

/-- C7: applying `indexOfMax` to the empty sequence yields `none`, never a
yields a silent index; the orchestrator never reaches it with an empty
sequence — the empty input is intercepted before any load, and any
successfully loaded batch of a non-empty input yields a non-empty count
sequence. -/
theorem indexOfMax_empty_contract (α : Type) [LinearOrder α] (ε : Type) :
    indexOfMax ([] : List α) = none ∧
    (∀ read : String → Except ε String, findMaxFile read [] = Except.ok none) ∧
    (∀ (read : String → Except ε String) (paths results : List String),
      paths ≠ [] → loadFiles read paths = .ok results →
      results.map countNonEmptyLines ≠ []) := by
  refine ⟨rfl, fun read => rfl, ?_⟩
  intro read paths results hne hok
  have hlen := loadFiles_length read paths results hok
  simp only [ne_eq, List.map_eq_nil_iff]
  intro hres
  subst hres
  exact hne (List.length_eq_zero.mp (by simpa using hlen.symm))

/-- C7 witness: the contract applied at a singleton batch. -/
theorem indexOfMax_empty_contract_witness :
    (["x\ny"] : List String).map countNonEmptyLines ≠ [] :=
  (indexOfMax_empty_contract Nat String).2.2 (fun _ => .ok "x\ny") ["A"] ["x\ny"]
    (by simp) rfl

/-- C8: whenever `findMaxFile` succeeds with a present value, that value
is one of the input paths (the selecting index is in bounds). -/
theorem findMaxFile_result_mem (ε : Type) (read : String → Except ε String)
    (paths : List String) (v : String)
    (h : findMaxFile read paths = .ok (some v)) : v ∈ paths := by
  unfold findMaxFile at h
  by_cases hl : paths.length = 0
  · rw [if_pos hl] at h
    simp at h
  · rw [if_neg hl] at h
    cases hlf : loadFiles read paths with
    | error e => rw [hlf] at h; cases h
    | ok results =>
      rw [hlf] at h
      have hb : (indexOfMax (results.map countNonEmptyLines)).bind
          (fun i => paths[i]?) = some v := by
        simpa using h
      rw [Option.bind_eq_some] at hb
      obtain ⟨i, hi, hget⟩ := hb
      exact List.getElem?_mem hget

/-- C8 witness: with both files two lines long, the winner "P" is a
member of the input sequence. -/
theorem findMaxFile_result_mem_witness : "P" ∈ ["P", "Q"] :=
  findMaxFile_result_mem String (fun _ => Except.ok "a\nb") ["P", "Q"] "P" rfl

/-- C9: appending a single trailing newline never changes the
non-empty-line count. -/
theorem countNonEmptyLines_trailing_newline (s : String) :
    countNonEmptyLines (s ++ "\n") = countNonEmptyLines s := by
  unfold countNonEmptyLines
  rw [String.data_append]
  have hnl : ("\n" : String).data = ['\n'] := rfl
  rw [hnl, splitOnNewline_append_newline]
  simp

/-- C10: the successful result of `findMaxFile` depends only on the
path sequence and the per-path non-empty line counts: two runs over the
same paths whose loaded contents agree on every count return the same
result. -/
theorem findMaxFile_counts_determine_result (ε : Type)
    (read₁ read₂ : String → Except ε String) (content₁ content₂ : String → String)
    (paths : List String)
    (h₁ : ∀ p ∈ paths, read₁ p = .ok (content₁ p))
    (h₂ : ∀ p ∈ paths, read₂ p = .ok (content₂ p))
    (hc : ∀ p ∈ paths, countNonEmptyLines (content₁ p) = countNonEmptyLines (content₂ p)) :
    findMaxFile read₁ paths = findMaxFile read₂ paths := by
  rw [findMaxFile_of_reads read₁ content₁ paths h₁,
    findMaxFile_of_reads read₂ content₂ paths h₂, List.map_congr_left hc]

/-- C10 witness: two runs over A, B, C with different texts but equal
per-path counts produce the same result. -/
theorem findMaxFile_counts_determine_result_witness :
    findMaxFile exampleRead ["A", "B", "C"] = findMaxFile exampleRead2 ["A", "B", "C"] := by
  refine findMaxFile_counts_determine_result String exampleRead exampleRead2
    exampleContent exampleContent2 ["A", "B", "C"] (fun p hp => rfl) (fun p hp => rfl) ?_
  intro p hp
  rcases (by simpa using hp : p = "A" ∨ p = "B" ∨ p = "C") with rfl | rfl | rfl <;> rfl
end Untangling
